import Mathlib

/-!
Verification of the key-to-joystick translation cores of the
`macropad_to_gamepad` repository.

The development shallowly embeds three pieces of the repository:

* the combo state machine of `virtual_joystick.py` (per-button
  released / pressing / pressed / releasing lifecycle driven by raw key
  events, emitting virtual button writes),
* the fixed per-key-code forwarder of `virtual_keyboard_joystick.py`,
* the throttle gate `forward_throttle` of `supercruise_only_throttle.py`.

Each Lean definition mirrors the corresponding Python code; the theorems
at the end of the file settle the specification claims against these
definitions.
-/

namespace MacropadGamepad

/-- Physical key identities as used by `virtual_joystick.py`.  The eight
modifier constructors correspond to the entries of the `MOD_KEYS` table
(each physical left/right code is tracked separately); `f n` stands for a
key whose name starts with `KEY_F` (e.g. `KEY_F13`), and `other n` is any
remaining key code. -/
inductive Key : Type
  | leftctrl
  | rightctrl
  | leftalt
  | rightalt
  | leftshift
  | rightshift
  | leftmeta
  | rightmeta
  | f (n : Nat)
  | other (n : Nat)
deriving DecidableEq, Repr

/-- Membership in the `MOD_KEYS` table: `key_name in mod_state`. -/
def isMod : Key → Bool
  | Key.leftctrl => true
  | Key.rightctrl => true
  | Key.leftalt => true
  | Key.rightalt => true
  | Key.leftshift => true
  | Key.rightshift => true
  | Key.leftmeta => true
  | Key.rightmeta => true
  | _ => false

/-- The test `key_name.startswith("KEY_F")` of the source. -/
def isFKey : Key → Bool
  | Key.f _ => true
  | _ => false

/-- Per-button lifecycle states of the combo state machine
(`button_states` values in `virtual_joystick.py`). -/
inductive BtnState : Type
  | released
  | pressing
  | pressed
  | releasing
deriving DecidableEq, Repr

/-- One entry of `combo_map`: a required any-of modifier set, the trigger
key, and the target button number parsed from the `btn_<N>` action. -/
structure Binding : Type where
  mods : List Key
  fkey : Key
  btn : Nat
deriving DecidableEq, Repr

/-- The static configuration: the `combo_map` entries in iteration order,
and the key list of the `button_states` dictionary (button numbers in
order of first appearance). -/
structure Cfg : Type where
  bindings : List Binding
  buttons : List Nat

/-- Raw input event: a key code together with its value
(1 = down, 0 = up, 2 = repeat). -/
structure Event : Type where
  key : Key
  value : Nat

/-- Mutable state of the `virtual_joystick.py` event loop. -/
structure StM : Type where
  mod_state : Key → Bool
  mod_keys_down : List Key
  fkeys_down : List Key
  button_states : Nat → BtnState

/-- `CUSTOM_BTN_BASE` of the source. -/
def CUSTOM_BTN_BASE : Nat := 704

/-- Pointwise update of a button-state table. -/
def updState (bs : Nat → BtnState) (n : Nat) (v : BtnState) : Nat → BtnState :=
  fun m => if m = n then v else bs m

/-- Python `set.add`: sets are modelled as duplicate-free lists. -/
def addKey (k : Key) (l : List Key) : List Key :=
  if k ∈ l then l else k :: l

/-- Python `set.discard`. -/
def removeKey (k : Key) (l : List Key) : List Key :=
  l.filter (fun x => !decide (x = k))

/-- The membership test `set(mods) & mod_keys_down` (nonempty iff some
required modifier is currently down). -/
def modsHeld (mods : List Key) (mkd : List Key) : Bool :=
  mods.any (fun m => decide (m ∈ mkd))

/-- The updated `mod_keys_down` after a modifier event with the given
value (`add` on truthy value, `discard` otherwise). -/
def mkdAfter (k : Key) (v : Nat) (mkd : List Key) : List Key :=
  if v ≠ 0 then addKey k mkd else removeKey k mkd

/-- Finalization pass of the modifier branch: for each `combo_map` entry
in order, a button in `releasing` whose required set has empty
intersection with `mod_keys_down` becomes `released` and a virtual
button-up `(CUSTOM_BTN_BASE + btn, 0)` is written. -/
def modFinalize (mkd : List Key) : List Binding → (Nat → BtnState) →
    (Nat → BtnState) × List (Nat × Nat)
  | [], bs => (bs, [])
  | b :: rest, bs =>
    if bs b.btn = BtnState.releasing ∧ modsHeld b.mods mkd = false then
      let next := modFinalize mkd rest (updState bs b.btn BtnState.released)
      (next.1, (CUSTOM_BTN_BASE + b.btn, 0) :: next.2)
    else
      modFinalize mkd rest bs

/-- First pass of the key-press branch: a `released` button whose binding
has some required modifier active in `mod_state` becomes `pressing`. -/
def pressingPass (ms : Key → Bool) : List Binding → (Nat → BtnState) → (Nat → BtnState)
  | [], bs => bs
  | b :: rest, bs =>
    if b.mods.any ms = true ∧ bs b.btn = BtnState.released then
      pressingPass ms rest (updState bs b.btn BtnState.pressing)
    else
      pressingPass ms rest bs

/-- Second pass of the key-press branch: a `pressing` button whose
binding's trigger key is the pressed key becomes `pressed` and a virtual
button-down is written; a `pressing` button reached through an entry
whose trigger key differs is cancelled back to `released`. -/
def pressedPass (key : Key) : List Binding → (Nat → BtnState) →
    (Nat → BtnState) × List (Nat × Nat)
  | [], bs => (bs, [])
  | b :: rest, bs =>
    if b.fkey = key then
      if bs b.btn = BtnState.pressing then
        let next := pressedPass key rest (updState bs b.btn BtnState.pressed)
        (next.1, (CUSTOM_BTN_BASE + b.btn, 1) :: next.2)
      else
        pressedPass key rest bs
    else
      if bs b.btn = BtnState.pressing then
        pressedPass key rest (updState bs b.btn BtnState.released)
      else
        pressedPass key rest bs

/-- First pass of the key-release branch: a `pressed` button whose
trigger key is the released key becomes `releasing` (no write yet). -/
def releasingPass (key : Key) : List Binding → (Nat → BtnState) → (Nat → BtnState)
  | [], bs => bs
  | b :: rest, bs =>
    if b.fkey = key ∧ bs b.btn = BtnState.pressed then
      releasingPass key rest (updState bs b.btn BtnState.releasing)
    else
      releasingPass key rest bs

/-- Second pass of the key-release branch: iterating over the
`button_states` keys, a `releasing` button is finalized with a button-up
write when `mod_keys_down` is empty. -/
def finalizeAll (mkdEmpty : Bool) : List Nat → (Nat → BtnState) →
    (Nat → BtnState) × List (Nat × Nat)
  | [], bs => (bs, [])
  | n :: rest, bs =>
    if bs n = BtnState.releasing ∧ mkdEmpty = true then
      let next := finalizeAll mkdEmpty rest (updState bs n BtnState.released)
      (next.1, (CUSTOM_BTN_BASE + n, 0) :: next.2)
    else
      finalizeAll mkdEmpty rest bs

/-- One iteration of the `virtual_joystick.py` event loop on an `EV_KEY`
event: returns the updated state and the list of `(code, value)` pairs
written to the virtual device, in write order. -/
def step (cfg : Cfg) (s : StM) (e : Event) : StM × List (Nat × Nat) :=
  if isMod e.key = true then
    let ms := fun k => if k = e.key then e.value != 0 else s.mod_state k
    let mkd := mkdAfter e.key e.value s.mod_keys_down
    let fin := modFinalize mkd cfg.bindings s.button_states
    ({ mod_state := ms, mod_keys_down := mkd, fkeys_down := s.fkeys_down,
       button_states := fin.1 }, fin.2)
  else
    let fkd := if isFKey e.key = true then
        (if e.value ≠ 0 then addKey e.key s.fkeys_down else removeKey e.key s.fkeys_down)
      else s.fkeys_down
    if e.value = 1 then
      let bs1 := pressingPass s.mod_state cfg.bindings s.button_states
      let res := pressedPass e.key cfg.bindings bs1
      ({ s with fkeys_down := fkd, button_states := res.1 }, res.2)
    else if e.value = 0 then
      let bs1 := releasingPass e.key cfg.bindings s.button_states
      let res := finalizeAll s.mod_keys_down.isEmpty cfg.buttons bs1
      ({ s with fkeys_down := fkd, button_states := res.1 }, res.2)
    else
      ({ s with fkeys_down := fkd }, [])

/-- Initial state: no modifier held, every button `released`. -/
def initState : StM :=
  { mod_state := fun _ => false
    mod_keys_down := []
    fkeys_down := []
    button_states := fun _ => BtnState.released }

/-- Process a list of events, concatenating the emitted writes. -/
def runFrom (cfg : Cfg) (s : StM) : List Event → StM × List (Nat × Nat)
  | [] => (s, [])
  | e :: es =>
    let r := step cfg s e
    let rest := runFrom cfg r.1 es
    (rest.1, r.2 ++ rest.2)

/-- The values written for one particular button, in order. -/
def btnEvents (n : Nat) (ems : List (Nat × Nat)) : List Nat :=
  (ems.filter (fun p => decide (p.1 = CUSTOM_BTN_BASE + n))).map Prod.snd

/-- A button currently held down at the virtual device: its state is
`pressed` or `releasing`. -/
def outstanding (bs : Nat → BtnState) (n : Nat) : Bool :=
  decide (bs n = BtnState.pressed) || decide (bs n = BtnState.releasing)

/-- Strict alternation check: the list is a prefix of `e, 1-e, e, ...`
for values drawn from `{0, 1}`. -/
def altFrom : Nat → List Nat → Bool
  | _, [] => true
  | e, v :: vs => decide (v = e) && altFrom (1 - e) vs

/-! ### Model of `virtual_keyboard_joystick.py` -/

/-- Key codes `KEY_ESC .. KEY_MICMUTE` (1 to 248), the `ALL_KEYS` list. -/
def ALL_KEYS : List Nat := List.range' 1 248

/-- Position of an element in a list (the `enumerate` index). -/
def listIndex (c : Nat) : List Nat → Option Nat
  | [] => none
  | x :: xs => if x = c then some 0 else (listIndex c xs).map (· + 1)

/-- The `key_to_button` dictionary: key code to virtual button code. -/
def key_to_button (c : Nat) : Option Nat :=
  (listIndex c ALL_KEYS).map (fun i => CUSTOM_BTN_BASE + i)

/-- One iteration of the forwarder loop on an `EV_KEY` event: a mapped
key code writes `event.value` unconditionally to its fixed button. -/
def kbStep (code value : Nat) : List (Nat × Nat) :=
  match key_to_button code with
  | some b => [(b, value)]
  | none => []

/-- Process a list of `(code, value)` events through the forwarder. -/
def kbRun (es : List (Nat × Nat)) : List (Nat × Nat) :=
  (es.map (fun e => kbStep e.1 e.2)).flatten

/-! ### Model of `supercruise_only_throttle.py` -/

/-- The raw sample used by `forward_throttle`: the supplied value when
present, otherwise the retained `last_throttle_value`. -/
def rawSample (last_throttle_value : Int) (value : Option Int) : Int :=
  match value with
  | some v => v
  | none => last_throttle_value

/-- The `forward_throttle` function: returns the updated
`last_throttle_value` and the sample written to the virtual axis. -/
def forward_throttle (last_throttle_value : Int) (value : Option Int)
    (sc_active game_running force : Bool) : Int × Int :=
  let v := rawSample last_throttle_value value
  if sc_active || !game_running || force then (v, v) else (v, 0)

/-- Modelled from the code's shutdown path: the `finally` block of
`virtual_joystick.py` (and of `virtual_keyboard_joystick.py`) runs
`ui.close()` only, so the list of virtual key events written at exit is
empty whatever the final state. -/
def shutdownEmissions (_s : StM) : List (Nat × Nat) := []

/-! ### Conditions characterizing the four iteration passes -/

/-- Condition under which `modFinalize` fires for button `n`: the button
is `releasing` and some `combo_map` entry for it has all required
modifiers absent from `mod_keys_down`. -/
def finCond (mkd : List Key) (l : List Binding) (bs : Nat → BtnState) (n : Nat) : Bool :=
  decide (bs n = BtnState.releasing) &&
    l.any (fun b => decide (b.btn = n) && !modsHeld b.mods mkd)

/-- Condition under which `pressingPass` moves button `n` to `pressing`:
it is `released` and some entry for it has an active required modifier. -/
def pressCond (ms : Key → Bool) (l : List Binding) (bs : Nat → BtnState) (n : Nat) : Bool :=
  decide (bs n = BtnState.released) &&
    l.any (fun b => decide (b.btn = n) && b.mods.any ms)

/-- Condition under which `releasingPass` moves button `n` to
`releasing`: it is `pressed` and some entry for it has the released key
as trigger. -/
def relCond (key : Key) (l : List Binding) (bs : Nat → BtnState) (n : Nat) : Bool :=
  decide (bs n = BtnState.pressed) &&
    l.any (fun b => decide (b.btn = n) && decide (b.fkey = key))

/-- Condition under which `finalizeAll` finalizes button `n`: it is
`releasing`, no modifier key at all is down, and `n` is a key of the
`button_states` dictionary. -/
def finAllCond (mkdEmpty : Bool) (btns : List Nat) (bs : Nat → BtnState) (n : Nat) : Bool :=
  decide (bs n = BtnState.releasing) && mkdEmpty && decide (n ∈ btns)

/-! ### Concrete instances used by counterexamples and witnesses -/

/-- A one-entry configuration: combo `(ctrl-left, F13) → btn_0`. -/
def cfg0 : Cfg :=
  { bindings := [{ mods := [Key.leftctrl], fkey := Key.f 13, btn := 0 }]
    buttons := [0] }

/-- A configuration whose single binding lists both physical codes of
the Ctrl pair as its any-of required set. -/
def cfgPair : Cfg :=
  { bindings := [{ mods := [Key.leftctrl, Key.rightctrl], fkey := Key.f 13, btn := 0 }]
    buttons := [0] }

/-- A state with button 0 in `releasing` and no modifier held. -/
def sReleasing : StM :=
  { mod_state := fun _ => false
    mod_keys_down := []
    fkeys_down := []
    button_states := fun n => if n = 0 then BtnState.releasing else BtnState.released }

/-- A state with button 0 in `pressed` and no modifier held. -/
def sPressed : StM :=
  { mod_state := fun _ => false
    mod_keys_down := []
    fkeys_down := []
    button_states := fun n => if n = 0 then BtnState.pressed else BtnState.released }

/-- A state with both Ctrl codes down and button 0 in `releasing`. -/
def sPair : StM :=
  { mod_state := fun k => decide (k = Key.leftctrl) || decide (k = Key.rightctrl)
    mod_keys_down := [Key.leftctrl, Key.rightctrl]
    fkeys_down := []
    button_states := fun n => if n = 0 then BtnState.releasing else BtnState.released }

/-- Press Ctrl, press F13, press right Shift, release Ctrl, release F13:
afterwards button 0 sits in `releasing` while only the unrelated right
Shift is held. -/
def traceHeldShift : List Event :=
  [{ key := Key.leftctrl, value := 1 }, { key := Key.f 13, value := 1 },
   { key := Key.rightshift, value := 1 }, { key := Key.leftctrl, value := 0 },
   { key := Key.f 13, value := 0 }]

/-- Press Ctrl then press F13: button 0 ends in `pressed`. -/
def tracePress : List Event :=
  [{ key := Key.leftctrl, value := 1 }, { key := Key.f 13, value := 1 }]

/-! ### Basic lemmas about the state and event helpers -/

theorem updState_same (bs : Nat → BtnState) (n : Nat) (v : BtnState) :
    updState bs n v n = v := by
  simp [updState]

theorem updState_other (bs : Nat → BtnState) (n : Nat) (v : BtnState) (m : Nat)
    (h : m ≠ n) : updState bs n v m = bs m := by
  simp [updState, h]

theorem btnEvents_nil (n : Nat) : btnEvents n [] = [] := rfl

theorem btnEvents_cons_same (n v : Nat) (ems : List (Nat × Nat)) :
    btnEvents n ((CUSTOM_BTN_BASE + n, v) :: ems) = v :: btnEvents n ems := by
  simp [btnEvents]

theorem btnEvents_cons_other (n m v : Nat) (ems : List (Nat × Nat)) (h : m ≠ n) :
    btnEvents n ((CUSTOM_BTN_BASE + m, v) :: ems) = btnEvents n ems := by
  have h2 : ¬ (CUSTOM_BTN_BASE + m = CUSTOM_BTN_BASE + n) :=
    fun hc => h (Nat.add_left_cancel hc)
  simp [btnEvents, h2]

theorem btnEvents_append (n : Nat) (a b : List (Nat × Nat)) :
    btnEvents n (a ++ b) = btnEvents n a ++ btnEvents n b := by
  simp [btnEvents, List.filter_append]

/-! ### Characterization of the modifier-branch finalize pass -/

theorem modFinalize_char (mkd : List Key) (l : List Binding) (n : Nat) :
    ∀ bs : Nat → BtnState,
      (if finCond mkd l bs n = true
        then (modFinalize mkd l bs).1 n = BtnState.released ∧
          btnEvents n (modFinalize mkd l bs).2 = [0]
        else (modFinalize mkd l bs).1 n = bs n ∧
          btnEvents n (modFinalize mkd l bs).2 = []) := by
  induction l with
  | nil =>
    intro bs
    simp [modFinalize, finCond, btnEvents]
  | cons b rest ih =>
    intro bs
    by_cases hc : bs b.btn = BtnState.releasing ∧ modsHeld b.mods mkd = false
    · by_cases hn : n = b.btn
      · subst hn
        have hF : finCond mkd (b :: rest) bs b.btn = true := by
          simp [finCond, hc.1, hc.2, List.any_cons]
        have ihr := ih (updState bs b.btn BtnState.released)
        have hFr : finCond mkd rest (updState bs b.btn BtnState.released) b.btn = false := by
          simp [finCond, updState_same]
        rw [hFr] at ihr
        simp only [if_neg (by simp : ¬ (false = true))] at ihr
        rw [hF]
        simp only [if_pos rfl]
        rw [modFinalize, if_pos hc]
        refine ⟨?_, ?_⟩
        · exact ihr.1.trans (updState_same bs b.btn BtnState.released)
        · rw [btnEvents_cons_same, ihr.2]
      · have hn' : b.btn ≠ n := fun hh => hn hh.symm
        have hbs' : updState bs b.btn BtnState.releasing n = bs n := by
          exact updState_other bs b.btn BtnState.releasing n hn
        have ihr := ih (updState bs b.btn BtnState.released)
        have hFr : finCond mkd rest (updState bs b.btn BtnState.released) n =
            finCond mkd rest bs n := by
          simp [finCond, updState_other bs b.btn BtnState.released n hn]
        rw [hFr] at ihr
        have hcons : finCond mkd (b :: rest) bs n = finCond mkd rest bs n := by
          simp [finCond, List.any_cons, hn']
        rw [hcons]
        rw [modFinalize, if_pos hc]
        rcases hb : finCond mkd rest bs n with _ | _
        · rw [hb] at ihr
          simp only [if_neg (by simp : ¬ (false = true))] at ihr ⊢
          refine ⟨?_, ?_⟩
          · exact ihr.1.trans (updState_other bs b.btn BtnState.released n hn)
          · rw [btnEvents_cons_other n b.btn 0 _ hn', ihr.2]
        · rw [hb] at ihr
          simp only [if_pos rfl] at ihr ⊢
          refine ⟨ihr.1, ?_⟩
          rw [btnEvents_cons_other n b.btn 0 _ hn', ihr.2]
    · have ihr := ih bs
      have hcons : finCond mkd (b :: rest) bs n = finCond mkd rest bs n := by
        by_cases hn : b.btn = n
        · subst hn
          by_cases hr : bs b.btn = BtnState.releasing
          · have hm : modsHeld b.mods mkd = true := by
              rcases hmm : modsHeld b.mods mkd with _ | _
              · exact absurd ⟨hr, hmm⟩ hc
              · rfl
            simp [finCond, List.any_cons, hm]
          · simp [finCond, hr]
        · simp [finCond, List.any_cons, hn]
      rw [hcons]
      rw [modFinalize, if_neg hc]
      exact ihr

/-! ### Characterization of the key-press first pass -/

theorem pressingPass_char (ms : Key → Bool) (l : List Binding) (n : Nat) :
    ∀ bs : Nat → BtnState,
      (if pressCond ms l bs n = true
        then pressingPass ms l bs n = BtnState.pressing
        else pressingPass ms l bs n = bs n) := by
  induction l with
  | nil =>
    intro bs
    simp [pressingPass, pressCond]
  | cons b rest ih =>
    intro bs
    by_cases hc : b.mods.any ms = true ∧ bs b.btn = BtnState.released
    · by_cases hn : n = b.btn
      · subst hn
        have hF : pressCond ms (b :: rest) bs b.btn = true := by
          simp [pressCond, hc.1, hc.2, List.any_cons]
        have ihr := ih (updState bs b.btn BtnState.pressing)
        have hFr : pressCond ms rest (updState bs b.btn BtnState.pressing) b.btn = false := by
          simp [pressCond, updState_same]
        rw [hFr] at ihr
        simp only [if_neg (by simp : ¬ (false = true))] at ihr
        rw [hF]
        simp only [if_pos rfl]
        rw [pressingPass, if_pos hc]
        exact ihr.trans (updState_same bs b.btn BtnState.pressing)
      · have hn' : b.btn ≠ n := fun hh => hn hh.symm
        have ihr := ih (updState bs b.btn BtnState.pressing)
        have hFr : pressCond ms rest (updState bs b.btn BtnState.pressing) n =
            pressCond ms rest bs n := by
          simp [pressCond, updState_other bs b.btn BtnState.pressing n hn]
        rw [hFr] at ihr
        have hcons : pressCond ms (b :: rest) bs n = pressCond ms rest bs n := by
          simp [pressCond, List.any_cons, hn']
        rw [hcons]
        rw [pressingPass, if_pos hc]
        rcases hb : pressCond ms rest bs n with _ | _
        · rw [hb] at ihr
          simp only [if_neg (by simp : ¬ (false = true))] at ihr ⊢
          exact ihr.trans (updState_other bs b.btn BtnState.pressing n hn)
        · rw [hb] at ihr
          simp only [if_pos rfl] at ihr ⊢
          exact ihr
    · have ihr := ih bs
      have hcons : pressCond ms (b :: rest) bs n = pressCond ms rest bs n := by
        by_cases hn : b.btn = n
        · subst hn
          by_cases hr : bs b.btn = BtnState.released
          · have hm : b.mods.any ms = false := by
              rcases hmm : b.mods.any ms with _ | _
              · rfl
              · exact absurd ⟨hmm, hr⟩ hc
            simp [pressCond, List.any_cons, hm]
          · simp [pressCond, hr]
        · simp [pressCond, List.any_cons, hn]
      rw [hcons]
      rw [pressingPass, if_neg hc]
      exact ihr

/-! ### Characterization of the key-release first pass -/

theorem releasingPass_char (key : Key) (l : List Binding) (n : Nat) :
    ∀ bs : Nat → BtnState,
      (if relCond key l bs n = true
        then releasingPass key l bs n = BtnState.releasing
        else releasingPass key l bs n = bs n) := by
  induction l with
  | nil =>
    intro bs
    simp [releasingPass, relCond]
  | cons b rest ih =>
    intro bs
    by_cases hc : b.fkey = key ∧ bs b.btn = BtnState.pressed
    · by_cases hn : n = b.btn
      · subst hn
        have hF : relCond key (b :: rest) bs b.btn = true := by
          simp [relCond, hc.1, hc.2, List.any_cons]
        have ihr := ih (updState bs b.btn BtnState.releasing)
        have hFr : relCond key rest (updState bs b.btn BtnState.releasing) b.btn = false := by
          simp [relCond, updState_same]
        rw [hFr] at ihr
        simp only [if_neg (by simp : ¬ (false = true))] at ihr
        rw [hF]
        simp only [if_pos rfl]
        rw [releasingPass, if_pos hc]
        exact ihr.trans (updState_same bs b.btn BtnState.releasing)
      · have hn' : b.btn ≠ n := fun hh => hn hh.symm
        have ihr := ih (updState bs b.btn BtnState.releasing)
        have hFr : relCond key rest (updState bs b.btn BtnState.releasing) n =
            relCond key rest bs n := by
          simp [relCond, updState_other bs b.btn BtnState.releasing n hn]
        rw [hFr] at ihr
        have hcons : relCond key (b :: rest) bs n = relCond key rest bs n := by
          simp [relCond, List.any_cons, hn']
        rw [hcons]
        rw [releasingPass, if_pos hc]
        rcases hb : relCond key rest bs n with _ | _
        · rw [hb] at ihr
          simp only [if_neg (by simp : ¬ (false = true))] at ihr ⊢
          exact ihr.trans (updState_other bs b.btn BtnState.releasing n hn)
        · rw [hb] at ihr
          simp only [if_pos rfl] at ihr ⊢
          exact ihr
    · have ihr := ih bs
      have hcons : relCond key (b :: rest) bs n = relCond key rest bs n := by
        by_cases hn : b.btn = n
        · subst hn
          by_cases hr : bs b.btn = BtnState.pressed
          · have hm : b.fkey ≠ key := fun hh => hc ⟨hh, hr⟩
            simp [relCond, List.any_cons, hm]
          · simp [relCond, hr]
        · simp [relCond, List.any_cons, hn]
      rw [hcons]
      rw [releasingPass, if_neg hc]
      exact ihr

/-! ### Characterization of the key-release finalize pass -/

theorem finalizeAll_char (mkdEmpty : Bool) (btns : List Nat) (n : Nat) :
    ∀ bs : Nat → BtnState,
      (if finAllCond mkdEmpty btns bs n = true
        then (finalizeAll mkdEmpty btns bs).1 n = BtnState.released ∧
          btnEvents n (finalizeAll mkdEmpty btns bs).2 = [0]
        else (finalizeAll mkdEmpty btns bs).1 n = bs n ∧
          btnEvents n (finalizeAll mkdEmpty btns bs).2 = []) := by
  induction btns with
  | nil =>
    intro bs
    simp [finalizeAll, finAllCond, btnEvents]
  | cons m rest ih =>
    intro bs
    by_cases hc : bs m = BtnState.releasing ∧ mkdEmpty = true
    · by_cases hn : n = m
      · subst hn
        have hF : finAllCond mkdEmpty (n :: rest) bs n = true := by
          simp [finAllCond, hc.1, hc.2]
        have ihr := ih (updState bs n BtnState.released)
        have hFr : finAllCond mkdEmpty rest (updState bs n BtnState.released) n = false := by
          simp [finAllCond, updState_same]
        rw [hFr] at ihr
        simp only [if_neg (by simp : ¬ (false = true))] at ihr
        rw [hF]
        simp only [if_pos rfl]
        rw [finalizeAll, if_pos hc]
        refine ⟨?_, ?_⟩
        · exact ihr.1.trans (updState_same bs n BtnState.released)
        · rw [btnEvents_cons_same, ihr.2]
      · have hn' : m ≠ n := fun hh => hn hh.symm
        have ihr := ih (updState bs m BtnState.released)
        have hFr : finAllCond mkdEmpty rest (updState bs m BtnState.released) n =
            finAllCond mkdEmpty rest bs n := by
          simp [finAllCond, updState_other bs m BtnState.released n hn]
        rw [hFr] at ihr
        have hcons : finAllCond mkdEmpty (m :: rest) bs n = finAllCond mkdEmpty rest bs n := by
          simp [finAllCond, List.mem_cons, hn]
        rw [hcons]
        rw [finalizeAll, if_pos hc]
        rcases hb : finAllCond mkdEmpty rest bs n with _ | _
        · rw [hb] at ihr
          simp only [if_neg (by simp : ¬ (false = true))] at ihr ⊢
          refine ⟨?_, ?_⟩
          · exact ihr.1.trans (updState_other bs m BtnState.released n hn)
          · rw [btnEvents_cons_other n m 0 _ hn', ihr.2]
        · rw [hb] at ihr
          simp only [if_pos rfl] at ihr ⊢
          refine ⟨ihr.1, ?_⟩
          rw [btnEvents_cons_other n m 0 _ hn', ihr.2]
    · have ihr := ih bs
      have hcons : finAllCond mkdEmpty (m :: rest) bs n = finAllCond mkdEmpty rest bs n := by
        by_cases hn : n = m
        · subst hn
          have h0 : (decide (bs n = BtnState.releasing) && mkdEmpty) = false := by
            rcases hmk : mkdEmpty with _ | _
            · simp
            · rcases hrel : decide (bs n = BtnState.releasing) with _ | _
              · simp
              · exact absurd ⟨of_decide_eq_true hrel, hmk⟩ hc
          simp only [finAllCond, h0, Bool.false_and]
        · simp [finAllCond, List.mem_cons, hn]
      rw [hcons]
      rw [finalizeAll, if_neg hc]
      exact ihr

/-! ### The key-press second pass: per-button outcomes -/

/-- For every button, `pressedPass` either leaves it unchanged with no
write, commits `pressing → pressed` with a single button-down write, or
cancels `pressing → released` with no write.  The outcome among the last
two depends on binding order, but no other outcome is possible. -/
theorem pressedPass_cases (key : Key) (l : List Binding) (n : Nat) :
    ∀ bs : Nat → BtnState,
      ((pressedPass key l bs).1 n = bs n ∧
        btnEvents n (pressedPass key l bs).2 = [])
    ∨ (bs n = BtnState.pressing ∧ (pressedPass key l bs).1 n = BtnState.pressed ∧
        btnEvents n (pressedPass key l bs).2 = [1])
    ∨ (bs n = BtnState.pressing ∧ (pressedPass key l bs).1 n = BtnState.released ∧
        btnEvents n (pressedPass key l bs).2 = []) := by
  induction l with
  | nil =>
    intro bs
    left
    simp [pressedPass, btnEvents]
  | cons b rest ih =>
    intro bs
    by_cases hf : b.fkey = key
    · by_cases hp : bs b.btn = BtnState.pressing
      · rw [pressedPass, if_pos hf, if_pos hp]
        by_cases hn : n = b.btn
        · subst hn
          have ihr := ih (updState bs b.btn BtnState.pressed)
          rcases ihr with h1 | h2 | h3
          · right; left
            refine ⟨hp, ?_, ?_⟩
            · exact h1.1.trans (updState_same bs b.btn BtnState.pressed)
            · rw [btnEvents_cons_same, h1.2]
          · exact absurd (h2.1.symm.trans (updState_same bs b.btn BtnState.pressed)) (by simp)
          · exact absurd (h3.1.symm.trans (updState_same bs b.btn BtnState.pressed)) (by simp)
        · have hn' : b.btn ≠ n := fun hh => hn hh.symm
          have hup : updState bs b.btn BtnState.pressed n = bs n :=
            updState_other bs b.btn BtnState.pressed n hn
          have ihr := ih (updState bs b.btn BtnState.pressed)
          rcases ihr with h1 | h2 | h3
          · left
            refine ⟨h1.1.trans hup, ?_⟩
            rw [btnEvents_cons_other n b.btn 1 _ hn', h1.2]
          · right; left
            refine ⟨hup ▸ h2.1, h2.2.1, ?_⟩
            rw [btnEvents_cons_other n b.btn 1 _ hn', h2.2.2]
          · right; right
            refine ⟨hup ▸ h3.1, h3.2.1, ?_⟩
            rw [btnEvents_cons_other n b.btn 1 _ hn', h3.2.2]
      · rw [pressedPass, if_pos hf, if_neg hp]
        exact ih bs
    · by_cases hp : bs b.btn = BtnState.pressing
      · rw [pressedPass, if_neg hf, if_pos hp]
        by_cases hn : n = b.btn
        · subst hn
          have ihr := ih (updState bs b.btn BtnState.released)
          rcases ihr with h1 | h2 | h3
          · right; right
            refine ⟨hp, h1.1.trans (updState_same bs b.btn BtnState.released), h1.2⟩
          · exact absurd (h2.1.symm.trans (updState_same bs b.btn BtnState.released)) (by simp)
          · exact absurd (h3.1.symm.trans (updState_same bs b.btn BtnState.released)) (by simp)
        · have hup : updState bs b.btn BtnState.released n = bs n :=
            updState_other bs b.btn BtnState.released n hn
          have ihr := ih (updState bs b.btn BtnState.released)
          rcases ihr with h1 | h2 | h3
          · left
            exact ⟨h1.1.trans hup, h1.2⟩
          · right; left
            exact ⟨hup ▸ h2.1, h2.2.1, h2.2.2⟩
          · right; right
            exact ⟨hup ▸ h3.1, h3.2.1, h3.2.2⟩
      · rw [pressedPass, if_neg hf, if_neg hp]
        exact ih bs

/-! ### Unfolding lemmas for the four branches of `step` -/

theorem step_mod_bs (cfg : Cfg) (s : StM) (e : Event) (hm : isMod e.key = true) :
    (step cfg s e).1.button_states =
      (modFinalize (mkdAfter e.key e.value s.mod_keys_down) cfg.bindings s.button_states).1 := by
  simp [step, hm]

theorem step_mod_ems (cfg : Cfg) (s : StM) (e : Event) (hm : isMod e.key = true) :
    (step cfg s e).2 =
      (modFinalize (mkdAfter e.key e.value s.mod_keys_down) cfg.bindings s.button_states).2 := by
  simp [step, hm]

theorem step_mod_ms (cfg : Cfg) (s : StM) (e : Event) (hm : isMod e.key = true) :
    (step cfg s e).1.mod_state =
      fun k => if k = e.key then e.value != 0 else s.mod_state k := by
  simp [step, hm]

theorem step_mod_mkd (cfg : Cfg) (s : StM) (e : Event) (hm : isMod e.key = true) :
    (step cfg s e).1.mod_keys_down = mkdAfter e.key e.value s.mod_keys_down := by
  simp [step, hm]

theorem step_press_bs (cfg : Cfg) (s : StM) (e : Event) (hm : isMod e.key = false)
    (hv : e.value = 1) :
    (step cfg s e).1.button_states =
      (pressedPass e.key cfg.bindings
        (pressingPass s.mod_state cfg.bindings s.button_states)).1 := by
  simp [step, hm, hv]

theorem step_press_ems (cfg : Cfg) (s : StM) (e : Event) (hm : isMod e.key = false)
    (hv : e.value = 1) :
    (step cfg s e).2 =
      (pressedPass e.key cfg.bindings
        (pressingPass s.mod_state cfg.bindings s.button_states)).2 := by
  simp [step, hm, hv]

theorem step_rel_bs (cfg : Cfg) (s : StM) (e : Event) (hm : isMod e.key = false)
    (hv : e.value = 0) :
    (step cfg s e).1.button_states =
      (finalizeAll s.mod_keys_down.isEmpty cfg.buttons
        (releasingPass e.key cfg.bindings s.button_states)).1 := by
  simp [step, hm, hv]

theorem step_rel_ems (cfg : Cfg) (s : StM) (e : Event) (hm : isMod e.key = false)
    (hv : e.value = 0) :
    (step cfg s e).2 =
      (finalizeAll s.mod_keys_down.isEmpty cfg.buttons
        (releasingPass e.key cfg.bindings s.button_states)).2 := by
  simp [step, hm, hv]

theorem step_other_bs (cfg : Cfg) (s : StM) (e : Event) (hm : isMod e.key = false)
    (h1 : e.value ≠ 1) (h0 : e.value ≠ 0) :
    (step cfg s e).1.button_states = s.button_states := by
  simp [step, hm, h1, h0]

theorem step_other_ems (cfg : Cfg) (s : StM) (e : Event) (hm : isMod e.key = false)
    (h1 : e.value ≠ 1) (h0 : e.value ≠ 0) :
    (step cfg s e).2 = [] := by
  simp [step, hm, h1, h0]

/-! ### Per-step outcome for a single button -/

/-- Processing one raw event affects each button's device-level
down/up status in exactly one of three ways: no change and no write for
that button, a transition to held with a single button-down write, or a
transition to free with a single button-up write. -/
theorem step_cases (cfg : Cfg) (s : StM) (e : Event) (n : Nat) :
    (outstanding (step cfg s e).1.button_states n = outstanding s.button_states n ∧
      btnEvents n (step cfg s e).2 = [])
  ∨ (outstanding s.button_states n = false ∧
      outstanding (step cfg s e).1.button_states n = true ∧
      btnEvents n (step cfg s e).2 = [1])
  ∨ (outstanding s.button_states n = true ∧
      outstanding (step cfg s e).1.button_states n = false ∧
      btnEvents n (step cfg s e).2 = [0]) := by
  rcases hm : isMod e.key with _ | _
  · -- non-modifier key
    by_cases hv1 : e.value = 1
    · rw [step_press_bs cfg s e hm hv1, step_press_ems cfg s e hm hv1]
      have hpp := pressingPass_char s.mod_state cfg.bindings n s.button_states
      set bs1 := pressingPass s.mod_state cfg.bindings s.button_states with hbs1
      have hout1 : outstanding bs1 n = outstanding s.button_states n := by
        by_cases hb : pressCond s.mod_state cfg.bindings s.button_states n = true
        · rw [if_pos hb] at hpp
          have hb' := hb
          simp only [pressCond, Bool.and_eq_true, decide_eq_true_eq] at hb'
          simp [outstanding, hpp, hb'.1]
        · rw [if_neg hb] at hpp
          simp [outstanding, hpp]
      rcases pressedPass_cases e.key cfg.bindings n bs1 with h1 | h2 | h3
      · left
        refine ⟨?_, h1.2⟩
        calc outstanding (pressedPass e.key cfg.bindings bs1).1 n
            = outstanding bs1 n := by simp [outstanding, h1.1]
          _ = outstanding s.button_states n := hout1
      · right; left
        refine ⟨?_, ?_, h2.2.2⟩
        · rw [← hout1]
          simp [outstanding, h2.1]
        · simp [outstanding, h2.2.1]
      · left
        refine ⟨?_, h3.2.2⟩
        calc outstanding (pressedPass e.key cfg.bindings bs1).1 n
            = false := by simp [outstanding, h3.2.1]
          _ = outstanding bs1 n := by simp [outstanding, h3.1]
          _ = outstanding s.button_states n := hout1
    · by_cases hv0 : e.value = 0
      · rw [step_rel_bs cfg s e hm hv0, step_rel_ems cfg s e hm hv0]
        have hrp := releasingPass_char e.key cfg.bindings n s.button_states
        set bs1 := releasingPass e.key cfg.bindings s.button_states with hbs1
        have hout1 : outstanding bs1 n = outstanding s.button_states n := by
          by_cases hb : relCond e.key cfg.bindings s.button_states n = true
          · rw [if_pos hb] at hrp
            have hb' := hb
            simp only [relCond, Bool.and_eq_true, decide_eq_true_eq] at hb'
            simp [outstanding, hrp, hb'.1]
          · rw [if_neg hb] at hrp
            simp [outstanding, hrp]
        have hfa := finalizeAll_char s.mod_keys_down.isEmpty cfg.buttons n bs1
        by_cases hb : finAllCond s.mod_keys_down.isEmpty cfg.buttons bs1 n = true
        · rw [if_pos hb] at hfa
          have hb' := hb
          simp only [finAllCond, Bool.and_eq_true, decide_eq_true_eq] at hb'
          right; right
          refine ⟨?_, ?_, hfa.2⟩
          · rw [← hout1]
            simp [outstanding, hb'.1.1]
          · simp [outstanding, hfa.1]
        · rw [if_neg hb] at hfa
          left
          refine ⟨?_, hfa.2⟩
          calc outstanding (finalizeAll s.mod_keys_down.isEmpty cfg.buttons bs1).1 n
              = outstanding bs1 n := by simp [outstanding, hfa.1]
            _ = outstanding s.button_states n := hout1
      · left
        rw [step_other_bs cfg s e hm hv1 hv0, step_other_ems cfg s e hm hv1 hv0]
        exact ⟨rfl, rfl⟩
  · -- modifier key
    rw [step_mod_bs cfg s e hm, step_mod_ems cfg s e hm]
    have hmf := modFinalize_char (mkdAfter e.key e.value s.mod_keys_down)
      cfg.bindings n s.button_states
    by_cases hb : finCond (mkdAfter e.key e.value s.mod_keys_down)
        cfg.bindings s.button_states n = true
    · rw [if_pos hb] at hmf
      have hb' := hb
      simp only [finCond, Bool.and_eq_true, decide_eq_true_eq] at hb'
      right; right
      refine ⟨?_, ?_, hmf.2⟩
      · simp [outstanding, hb'.1]
      · simp [outstanding, hmf.1]
    · rw [if_neg hb] at hmf
      left
      refine ⟨?_, hmf.2⟩
      simp [outstanding, hmf.1]

/-! ### The alternation invariant over whole runs -/

theorem runFrom_cons_fst (cfg : Cfg) (s : StM) (e : Event) (es : List Event) :
    (runFrom cfg s (e :: es)).1 = (runFrom cfg (step cfg s e).1 es).1 := by
  simp [runFrom]

theorem runFrom_cons_snd (cfg : Cfg) (s : StM) (e : Event) (es : List Event) :
    (runFrom cfg s (e :: es)).2 =
      (step cfg s e).2 ++ (runFrom cfg (step cfg s e).1 es).2 := by
  simp [runFrom]

/-- Invariant: starting from any state, the writes emitted for button `n`
alternate, with the next expected value determined by whether the button
is currently held down. -/
theorem runFrom_alt (cfg : Cfg) (n : Nat) :
    ∀ (es : List Event) (s : StM),
      altFrom (if outstanding s.button_states n = true then 0 else 1)
        (btnEvents n (runFrom cfg s es).2) = true := by
  intro es
  induction es with
  | nil =>
    intro s
    simp [runFrom, btnEvents, altFrom]
  | cons e es ih =>
    intro s
    rw [runFrom_cons_snd, btnEvents_append]
    rcases step_cases cfg s e n with h1 | h2 | h3
    · rw [h1.2]
      have := ih (step cfg s e).1
      rw [h1.1] at this
      simpa using this
    · rw [h2.2.2, h2.1]
      have := ih (step cfg s e).1
      rw [h2.2.1] at this
      simp only [if_pos rfl] at this
      simp [altFrom]
      exact this
    · rw [h3.2.2, h3.1]
      have := ih (step cfg s e).1
      rw [h3.2.1] at this
      simp only [if_neg (by simp : ¬ (false = true))] at this
      simp only [if_pos rfl]
      simp [altFrom]
      exact this

/-! ### Coverage of the modifier-branch writes -/

theorem mem_btnEvents (n : Nat) (p : Nat × Nat) (ems : List (Nat × Nat))
    (hp : p ∈ ems) (h1 : p.1 = CUSTOM_BTN_BASE + n) : p.2 ∈ btnEvents n ems := by
  refine List.mem_map.mpr ⟨p, List.mem_filter.mpr ⟨hp, by simp [h1]⟩, rfl⟩

theorem modFinalize_mem (mkd : List Key) (l : List Binding) :
    ∀ bs : Nat → BtnState, ∀ p ∈ (modFinalize mkd l bs).2,
      p.2 = 0 ∧ CUSTOM_BTN_BASE ≤ p.1 ∧
        bs (p.1 - CUSTOM_BTN_BASE) = BtnState.releasing := by
  induction l with
  | nil =>
    intro bs p hp
    simp [modFinalize] at hp
  | cons b rest ih =>
    intro bs p hp
    by_cases hc : bs b.btn = BtnState.releasing ∧ modsHeld b.mods mkd = false
    · rw [modFinalize, if_pos hc] at hp
      rcases List.mem_cons.mp hp with hph | hpt
      · subst hph
        refine ⟨rfl, Nat.le_add_right _ _, ?_⟩
        simpa [Nat.add_sub_cancel_left] using hc.1
      · have hr := ih (updState bs b.btn BtnState.released) p hpt
        refine ⟨hr.1, hr.2.1, ?_⟩
        by_cases hm : p.1 - CUSTOM_BTN_BASE = b.btn
        · exfalso
          have := hr.2.2
          rw [hm, updState_same] at this
          exact absurd this (by simp)
        · have := hr.2.2
          rwa [updState_other _ _ _ _ hm] at this
    · rw [modFinalize, if_neg hc] at hp
      exact ih bs p hp

/-! ### Claim theorems -/

/-- C1: For every sequence of raw key events processed by the combo
state machine, and for every button id, the emitted virtual writes for
that button strictly alternate: the per-button write sequence is a
prefix of `1, 0, 1, 0, ...`, so each button-down is followed by exactly
one button-up for the same button before any further button-down. -/
theorem c1_combo_button_writes_alternate (cfg : Cfg) (es : List Event) (n : Nat) :
    altFrom 1 (btnEvents n (runFrom cfg initState es).2) = true := by
  have h := runFrom_alt cfg n es initState
  have h0 : outstanding initState.button_states n = false := by
    simp [initState, outstanding]
  rw [h0] at h
  simpa using h

/-- C10: While a modifier key event (any value) is processed, every
virtual write emitted is a button-up (value 0) for a button that was in
state `releasing` and is finalized to `released`; in particular no
button-down is ever emitted during a modifier event. -/
theorem c10_modifier_event_writes (cfg : Cfg) (s : StM) (e : Event)
    (hm : isMod e.key = true) (p : Nat × Nat) (hp : p ∈ (step cfg s e).2) :
    p.2 = 0 ∧ CUSTOM_BTN_BASE ≤ p.1 ∧
    s.button_states (p.1 - CUSTOM_BTN_BASE) = BtnState.releasing ∧
    (step cfg s e).1.button_states (p.1 - CUSTOM_BTN_BASE) = BtnState.released := by
  rw [step_mod_ems cfg s e hm] at hp
  have hmem := modFinalize_mem (mkdAfter e.key e.value s.mod_keys_down)
    cfg.bindings s.button_states p hp
  refine ⟨hmem.1, hmem.2.1, hmem.2.2, ?_⟩
  rw [step_mod_bs cfg s e hm]
  have hchar := modFinalize_char (mkdAfter e.key e.value s.mod_keys_down)
    cfg.bindings (p.1 - CUSTOM_BTN_BASE) s.button_states
  by_cases hb : finCond (mkdAfter e.key e.value s.mod_keys_down)
      cfg.bindings s.button_states (p.1 - CUSTOM_BTN_BASE) = true
  · rw [if_pos hb] at hchar
    exact hchar.1
  · rw [if_neg hb] at hchar
    exfalso
    have hin : p.2 ∈ btnEvents (p.1 - CUSTOM_BTN_BASE)
        (modFinalize (mkdAfter e.key e.value s.mod_keys_down)
          cfg.bindings s.button_states).2 :=
      mem_btnEvents _ p _ hp (by omega)
    rw [hchar.2] at hin
    simp at hin

/-- Closed instance of `c10_modifier_event_writes`: finalizing button 0
from `releasing` on a Ctrl release emits exactly the button-up
`(704, 0)`. -/
theorem c10_modifier_event_writes_witness :
    ((704, 0) : Nat × Nat).2 = 0 ∧
    CUSTOM_BTN_BASE ≤ ((704, 0) : Nat × Nat).1 ∧
    sReleasing.button_states (((704, 0) : Nat × Nat).1 - CUSTOM_BTN_BASE) =
      BtnState.releasing ∧
    (step cfg0 sReleasing { key := Key.leftctrl, value := 0 }).1.button_states
      (((704, 0) : Nat × Nat).1 - CUSTOM_BTN_BASE) = BtnState.released :=
  c10_modifier_event_writes cfg0 sReleasing { key := Key.leftctrl, value := 0 }
    rfl (704, 0) (by decide)

/-- C3: With both physical codes of a modifier pair held, releasing one
while the other stays down does not clear the modifier: every binding of
button `n` still has a held required modifier, so a `releasing` button is
not finalized and emits nothing, and the surviving physical code stays
active both in `mod_state` (used for combo matching) and in
`mod_keys_down`. -/
theorem c3_paired_physical_modifier (cfg : Cfg) (s : StM) (k1 k2 : Key) (n : Nat)
    (hm1 : isMod k1 = true) (hne : k2 ≠ k1)
    (hheld : k2 ∈ s.mod_keys_down) (hms : s.mod_state k2 = true)
    (hbind : ∀ b ∈ cfg.bindings, b.btn = n → k2 ∈ b.mods)
    (hrel : s.button_states n = BtnState.releasing) :
    (step cfg s { key := k1, value := 0 }).1.button_states n = BtnState.releasing ∧
    btnEvents n (step cfg s { key := k1, value := 0 }).2 = [] ∧
    (step cfg s { key := k1, value := 0 }).1.mod_state k2 = true ∧
    k2 ∈ (step cfg s { key := k1, value := 0 }).1.mod_keys_down := by
  have hmkd' : k2 ∈ mkdAfter k1 0 s.mod_keys_down := by
    simp only [mkdAfter, if_neg (by simp : ¬ ((0 : Nat) ≠ 0)), removeKey]
    exact List.mem_filter.mpr ⟨hheld, by simp [hne]⟩
  have hany : cfg.bindings.any
      (fun b => decide (b.btn = n) &&
        !modsHeld b.mods (mkdAfter k1 0 s.mod_keys_down)) = false := by
    rcases h : cfg.bindings.any
        (fun b => decide (b.btn = n) &&
          !modsHeld b.mods (mkdAfter k1 0 s.mod_keys_down)) with _ | _
    · rfl
    · exfalso
      obtain ⟨b, hb, hbp⟩ := List.any_eq_true.mp h
      rw [Bool.and_eq_true] at hbp
      have hbtn : b.btn = n := of_decide_eq_true hbp.1
      have hmods : modsHeld b.mods (mkdAfter k1 0 s.mod_keys_down) = true :=
        List.any_eq_true.mpr ⟨k2, hbind b hb hbtn, by simp [hmkd']⟩
      rw [hmods] at hbp
      exact absurd hbp.2 (by simp)
  have hfin : ¬ finCond (mkdAfter k1 0 s.mod_keys_down)
      cfg.bindings s.button_states n = true := by
    simp [finCond, hany]
  have hchar := modFinalize_char (mkdAfter k1 0 s.mod_keys_down)
    cfg.bindings n s.button_states
  rw [if_neg hfin] at hchar
  refine ⟨?_, ?_, ?_, ?_⟩
  · rw [step_mod_bs cfg s { key := k1, value := 0 } hm1]
    exact hchar.1.trans hrel
  · rw [step_mod_ems cfg s { key := k1, value := 0 } hm1]
    exact hchar.2
  · rw [step_mod_ms cfg s { key := k1, value := 0 } hm1]
    simp [hne, hms]
  · rw [step_mod_mkd cfg s { key := k1, value := 0 } hm1]
    exact hmkd'

/-- Closed instance of `c3_paired_physical_modifier`: with left and
right Ctrl both down and button 0 `releasing`, releasing left Ctrl keeps
the button `releasing`, writes nothing, and right Ctrl remains active. -/
theorem c3_paired_physical_modifier_witness :
    (step cfgPair sPair { key := Key.leftctrl, value := 0 }).1.button_states 0 =
      BtnState.releasing ∧
    btnEvents 0 (step cfgPair sPair { key := Key.leftctrl, value := 0 }).2 = [] ∧
    (step cfgPair sPair { key := Key.leftctrl, value := 0 }).1.mod_state
      Key.rightctrl = true ∧
    Key.rightctrl ∈ (step cfgPair sPair { key := Key.leftctrl, value := 0 }).1.mod_keys_down :=
  c3_paired_physical_modifier cfgPair sPair Key.leftctrl Key.rightctrl 0
    rfl (by decide) (by decide) (by decide) (by decide) (by decide)

/-- C2 counterexample: after Ctrl down, F13 down, right-Shift down,
Ctrl up, F13 up, button 0 is in `releasing` and its required set
`(ctrl-left)` has no member held — yet no button-up was written (the
only write so far is the button-down), because the key-release path
checks the global `mod_keys_down`, which still holds the unrelated
right Shift. -/
theorem c2_unrelated_modifier_blocks_finalize :
    (runFrom cfg0 initState traceHeldShift).1.button_states 0 = BtnState.releasing ∧
    modsHeld [Key.leftctrl] (runFrom cfg0 initState traceHeldShift).1.mod_keys_down = false ∧
    btnEvents 0 (runFrom cfg0 initState traceHeldShift).2 = [1] := by
  decide

/-- C2 amended: a `releasing` button is finalized (moved to `released`
with a single button-up write) exactly when either (a) a modifier event
is processed and afterwards some binding of the button has an empty
intersection with `mod_keys_down`, or (b) a non-modifier key-release is
processed while `mod_keys_down` is globally empty and the button is a
key of `button_states`; on path (b) an unrelated held modifier blocks
finalization. -/
theorem c2_finalize_exact_conditions (cfg : Cfg) (s : StM) (e : Event) (n : Nat) :
    (isMod e.key = true → s.button_states n = BtnState.releasing →
      (((step cfg s e).1.button_states n = BtnState.released ∧
          btnEvents n (step cfg s e).2 = [0]) ↔
        cfg.bindings.any (fun b => decide (b.btn = n) &&
          !modsHeld b.mods (mkdAfter e.key e.value s.mod_keys_down)) = true))
  ∧ (isMod e.key = false → e.value = 0 → s.button_states n = BtnState.releasing →
      (((step cfg s e).1.button_states n = BtnState.released ∧
          btnEvents n (step cfg s e).2 = [0]) ↔
        (s.mod_keys_down.isEmpty = true ∧ n ∈ cfg.buttons))) := by
  constructor
  · intro hm hrel
    rw [step_mod_bs cfg s e hm, step_mod_ems cfg s e hm]
    have hchar := modFinalize_char (mkdAfter e.key e.value s.mod_keys_down)
      cfg.bindings n s.button_states
    by_cases hany : cfg.bindings.any (fun b => decide (b.btn = n) &&
        !modsHeld b.mods (mkdAfter e.key e.value s.mod_keys_down)) = true
    · have hfc : finCond (mkdAfter e.key e.value s.mod_keys_down)
          cfg.bindings s.button_states n = true := by
        simp [finCond, hrel, hany]
      rw [if_pos hfc] at hchar
      exact ⟨fun _ => hany, fun _ => hchar⟩
    · have hfc : ¬ finCond (mkdAfter e.key e.value s.mod_keys_down)
          cfg.bindings s.button_states n = true := by
        simp only [finCond, Bool.and_eq_true]
        exact fun h => hany h.2
      rw [if_neg hfc] at hchar
      constructor
      · intro h
        exact absurd (hrel.symm.trans (hchar.1.symm.trans h.1)) (by simp)
      · intro h
        exact absurd h hany
  · intro hm hv hrel
    rw [step_rel_bs cfg s e hm hv, step_rel_ems cfg s e hm hv]
    have hrc : ¬ relCond e.key cfg.bindings s.button_states n = true := by
      simp [relCond, hrel]
    have hrp := releasingPass_char e.key cfg.bindings n s.button_states
    rw [if_neg hrc] at hrp
    have hb1rel : releasingPass e.key cfg.bindings s.button_states n =
        BtnState.releasing := hrp.trans hrel
    have hfa := finalizeAll_char s.mod_keys_down.isEmpty cfg.buttons n
      (releasingPass e.key cfg.bindings s.button_states)
    by_cases hcond : s.mod_keys_down.isEmpty = true ∧ n ∈ cfg.buttons
    · have hfc : finAllCond s.mod_keys_down.isEmpty cfg.buttons
          (releasingPass e.key cfg.bindings s.button_states) n = true := by
        simp [finAllCond, hb1rel, hcond.1, hcond.2]
      rw [if_pos hfc] at hfa
      exact ⟨fun _ => hcond, fun _ => hfa⟩
    · have hfc : ¬ finAllCond s.mod_keys_down.isEmpty cfg.buttons
          (releasingPass e.key cfg.bindings s.button_states) n = true := by
        simp only [finAllCond, Bool.and_eq_true, decide_eq_true_eq]
        exact fun h => hcond ⟨h.1.2, h.2⟩
      rw [if_neg hfc] at hfa
      constructor
      · intro h
        exact absurd (hb1rel.symm.trans (hfa.1.symm.trans h.1)) (by simp)
      · intro h
        exact absurd h hcond
/-- Closed instance of `c2_finalize_exact_conditions` on both paths:
with button 0 `releasing` and nothing held, a Ctrl-up finalizes through
the per-binding check and an F13-up finalizes through the global
check. -/
theorem c2_finalize_exact_conditions_witness :
    (((step cfg0 sReleasing { key := Key.leftctrl, value := 0 }).1.button_states 0 =
          BtnState.released ∧
        btnEvents 0 (step cfg0 sReleasing { key := Key.leftctrl, value := 0 }).2 = [0]) ↔
      cfg0.bindings.any (fun b => decide (b.btn = 0) &&
        !modsHeld b.mods (mkdAfter Key.leftctrl 0 sReleasing.mod_keys_down)) = true) ∧
    (((step cfg0 sReleasing { key := Key.f 13, value := 0 }).1.button_states 0 =
          BtnState.released ∧
        btnEvents 0 (step cfg0 sReleasing { key := Key.f 13, value := 0 }).2 = [0]) ↔
      (sReleasing.mod_keys_down.isEmpty = true ∧ 0 ∈ cfg0.buttons)) :=
  ⟨(c2_finalize_exact_conditions cfg0 sReleasing
      { key := Key.leftctrl, value := 0 } 0).1 rfl (by decide),
   (c2_finalize_exact_conditions cfg0 sReleasing
      { key := Key.f 13, value := 0 } 0).2 rfl rfl (by decide)⟩

/-- C4 counterexample: the forwarder of `virtual_keyboard_joystick.py`
writes `event.value` unconditionally, so delivering the same key-down
twice produces two button-down writes for the same (already down)
virtual button 704. -/
theorem c4_duplicate_down_not_idempotent :
    kbRun [(1, 1), (1, 1)] = [(704, 1), (704, 1)] := by
  decide

/-- C4 amended: in the combo state machine a key-press event never
writes anything for a button already in `pressed` (and leaves it
`pressed`), so a duplicated down event cannot double-press there; the
simple forwarder, by contrast, duplicates the write. -/
theorem c4_no_second_down_when_pressed (cfg : Cfg) (s : StM) (k : Key) (n : Nat)
    (hp : s.button_states n = BtnState.pressed) :
    (step cfg s { key := k, value := 1 }).1.button_states n = BtnState.pressed ∧
    btnEvents n (step cfg s { key := k, value := 1 }).2 = [] := by
  rcases hm : isMod k with _ | _
  · rw [step_press_bs cfg s { key := k, value := 1 } hm rfl,
      step_press_ems cfg s { key := k, value := 1 } hm rfl]
    have hpc : ¬ pressCond s.mod_state cfg.bindings s.button_states n = true := by
      simp [pressCond, hp]
    have hpp := pressingPass_char s.mod_state cfg.bindings n s.button_states
    rw [if_neg hpc] at hpp
    have hb1 : pressingPass s.mod_state cfg.bindings s.button_states n =
        BtnState.pressed := hpp.trans hp
    rcases pressedPass_cases k cfg.bindings n
        (pressingPass s.mod_state cfg.bindings s.button_states) with h1 | h2 | h3
    · exact ⟨h1.1.trans hb1, h1.2⟩
    · exact absurd (h2.1.symm.trans hb1) (by simp)
    · exact absurd (h3.1.symm.trans hb1) (by simp)
  · rw [step_mod_bs cfg s { key := k, value := 1 } hm,
      step_mod_ems cfg s { key := k, value := 1 } hm]
    have hfc : ¬ finCond (mkdAfter k 1 s.mod_keys_down)
        cfg.bindings s.button_states n = true := by
      simp [finCond, hp]
    have hchar := modFinalize_char (mkdAfter k 1 s.mod_keys_down)
      cfg.bindings n s.button_states
    rw [if_neg hfc] at hchar
    exact ⟨hchar.1.trans hp, hchar.2⟩

/-- Closed instance of `c4_no_second_down_when_pressed`: pressing F13
again while button 0 is `pressed` writes nothing. -/
theorem c4_no_second_down_when_pressed_witness :
    (step cfg0 sPressed { key := Key.f 13, value := 1 }).1.button_states 0 =
      BtnState.pressed ∧
    btnEvents 0 (step cfg0 sPressed { key := Key.f 13, value := 1 }).2 = [] :=
  c4_no_second_down_when_pressed cfg0 sPressed (Key.f 13) 0 (by decide)

/-- C5 counterexample: from the initial state, pressing left Ctrl (a
relevant modifier becoming active for the binding of button 0, with no
other binding mid-transition) leaves button 0 in `released`, not
`pressing`, and writes nothing: candidate entry does not happen on the
modifier event. -/
theorem c5_modifier_down_keeps_released :
    (step cfg0 initState { key := Key.leftctrl, value := 1 }).1.button_states 0 =
      BtnState.released ∧
    BtnState.released ≠ BtnState.pressing ∧
    (step cfg0 initState { key := Key.leftctrl, value := 1 }).2 = [] := by
  decide

/-- C5 amended: a modifier key event never moves a `released` button to
`pressing`; candidate entry is deferred to the first pass of the next
non-modifier key-press, which moves a `released` button with an active
required modifier to `pressing`. -/
theorem c5_candidate_entry_deferred :
    (∀ (cfg : Cfg) (s : StM) (e : Event) (n : Nat), isMod e.key = true →
      s.button_states n = BtnState.released →
      (step cfg s e).1.button_states n = BtnState.released)
  ∧ (∀ (ms : Key → Bool) (l : List Binding) (bs : Nat → BtnState) (b : Binding),
      b ∈ l → b.mods.any ms = true → bs b.btn = BtnState.released →
      pressingPass ms l bs b.btn = BtnState.pressing) := by
  constructor
  · intro cfg s e n hm hrel
    rw [step_mod_bs cfg s e hm]
    have hfc : ¬ finCond (mkdAfter e.key e.value s.mod_keys_down)
        cfg.bindings s.button_states n = true := by
      simp [finCond, hrel]
    have hchar := modFinalize_char (mkdAfter e.key e.value s.mod_keys_down)
      cfg.bindings n s.button_states
    rw [if_neg hfc] at hchar
    exact hchar.1.trans hrel
  · intro ms l bs b hb hmods hrel
    have hpc : pressCond ms l bs b.btn = true := by
      simp only [pressCond, Bool.and_eq_true, decide_eq_true_eq]
      exact ⟨hrel, List.any_eq_true.mpr ⟨b, hb, by simp [hmods]⟩⟩
    have hpp := pressingPass_char ms l b.btn bs
    rw [if_pos hpc] at hpp
    exact hpp

/-- Closed instance of `c5_candidate_entry_deferred`: left Ctrl down
leaves button 0 `released`; the subsequent key-press first pass moves it
to `pressing` while Ctrl is active in `mod_state`. -/
theorem c5_candidate_entry_deferred_witness :
    (step cfg0 initState { key := Key.leftctrl, value := 1 }).1.button_states 0 =
      BtnState.released ∧
    pressingPass (fun k => decide (k = Key.leftctrl)) cfg0.bindings
      initState.button_states 0 = BtnState.pressing :=
  ⟨c5_candidate_entry_deferred.1 cfg0 initState
      { key := Key.leftctrl, value := 1 } 0 rfl rfl,
   c5_candidate_entry_deferred.2 (fun k => decide (k = Key.leftctrl)) cfg0.bindings
      initState.button_states { mods := [Key.leftctrl], fkey := Key.f 13, btn := 0 }
      (by decide) (by decide) rfl⟩

/-- C6: In the simple forwarder the virtual button is a fixed function
of the key code alone (`key_to_button`), so the button-up write of a
down/up pair targets exactly the button of the paired button-down,
whatever else (including modifier keys) happened in between. -/
theorem c6_up_targets_same_button (code b : Nat) (hb : key_to_button code = some b) :
    kbStep code 1 = [(b, 1)] ∧ kbStep code 0 = [(b, 0)] := by
  simp [kbStep, hb]

/-- Closed instance of `c6_up_targets_same_button`: key code 1
(`KEY_ESC`) maps to button 704 for both the down and the up write. -/
theorem c6_up_targets_same_button_witness :
    key_to_button 1 = some 704 ∧
    (kbStep 1 1 = [(704, 1)] ∧ kbStep 1 0 = [(704, 0)]) :=
  ⟨by decide, c6_up_targets_same_button 1 704 (by decide)⟩

/-- C7 counterexample: with the game active and supercruise (the
allowed state) inactive but `force = true`, `forward_throttle` outputs
the raw sample 5, not 0 — so "game active and not allowed implies
output 0" fails when the forced path is taken. -/
theorem c7_forced_output_nonzero :
    (forward_throttle 0 (some 5) false true true).2 = 5 ∧ ((5 : Int) ≠ 0) := by
  decide

/-- C7 amended: the gate contract of `forward_throttle`: the output is
the raw sample (the supplied value, else the retained one) iff the
allowed state holds, the game is inactive, or `force` is set, and 0
otherwise; in particular with the game inactive the output is always
the raw sample, and with the game active, the allowed state false and
`force` false the output is 0. -/
theorem c7_gate_contract (ltv : Int) (v : Option Int) (sc game force : Bool) :
    (forward_throttle ltv v sc game force).2 =
      (if (sc || !game || force) = true then rawSample ltv v else 0) ∧
    (forward_throttle ltv v sc false force).2 = rawSample ltv v ∧
    (forward_throttle ltv v false true false).2 = 0 := by
  refine ⟨?_, ?_, ?_⟩
  · rcases h : (sc || !game || force) with _ | _ <;> simp [forward_throttle, h]
  · simp [forward_throttle]
  · simp [forward_throttle]

/-- C8 counterexample: a value-2 (key repeat) event is not ignored.
After `traceHeldShift` button 0 sits in `releasing`; a right-Shift
repeat event then runs the modifier branch, which finalizes button 0 and
writes the button-up `(704, 0)` — state changes and an event is
emitted. -/
theorem c8_repeat_event_not_ignored :
    (step cfg0 (runFrom cfg0 initState traceHeldShift).1
        { key := Key.rightshift, value := 2 }).2 = [(704, 0)] ∧
    (step cfg0 (runFrom cfg0 initState traceHeldShift).1
        { key := Key.rightshift, value := 2 }).1.button_states 0 = BtnState.released ∧
    (runFrom cfg0 initState traceHeldShift).1.button_states 0 = BtnState.releasing := by
  decide

/-- C8 amended: a value-2 repeat event on a non-modifier key is ignored
by the combo state machine (no write, button and modifier state
untouched); a repeat on a modifier key is treated like a key-down and
can finalize `releasing` buttons, and the simple forwarder forwards
value 2 unchanged. -/
theorem c8_repeat_ignored_for_nonmodifier (cfg : Cfg) (s : StM) (k : Key)
    (hm : isMod k = false) :
    (step cfg s { key := k, value := 2 }).2 = [] ∧
    (step cfg s { key := k, value := 2 }).1.button_states = s.button_states ∧
    (step cfg s { key := k, value := 2 }).1.mod_state = s.mod_state ∧
    (step cfg s { key := k, value := 2 }).1.mod_keys_down = s.mod_keys_down := by
  simp [step, hm]

/-- Closed instance of `c8_repeat_ignored_for_nonmodifier`: an F13
repeat event writes nothing and changes no button or modifier state. -/
theorem c8_repeat_ignored_for_nonmodifier_witness :
    (step cfg0 initState { key := Key.f 13, value := 2 }).2 = [] ∧
    (step cfg0 initState { key := Key.f 13, value := 2 }).1.button_states =
      initState.button_states ∧
    (step cfg0 initState { key := Key.f 13, value := 2 }).1.mod_state =
      initState.mod_state ∧
    (step cfg0 initState { key := Key.f 13, value := 2 }).1.mod_keys_down =
      initState.mod_keys_down :=
  c8_repeat_ignored_for_nonmodifier cfg0 initState (Key.f 13) rfl

/-- C9: after Ctrl down and F13 down, button 0 is in `pressed` (its
button-down has been written), yet the shutdown path of the source — the
`finally` block, which only closes the device — emits no virtual event
at all, so no final button-up is written and the virtual button stays
latched down at exit. -/
theorem c9_no_flush_on_shutdown :
    (runFrom cfg0 initState tracePress).1.button_states 0 = BtnState.pressed ∧
    btnEvents 0 (runFrom cfg0 initState tracePress).2 = [1] ∧
    shutdownEmissions (runFrom cfg0 initState tracePress).1 = [] := by
  decide

end MacropadGamepad
